import Mathlib

/-!
Verification development for the ABI (ABIF) trace-file reader
`Bio/SeqIO/AbiIO.py`.

The Python module is embedded shallowly:

* a binary stream is a list of byte values (`Bytes`);
* `struct.unpack` on the big-endian formats the module builds
  (`'>' + count + base`) is embedded by `parseFmt` / `structUnpack`;
* the directory-entry class `_Dir` becomes `RawDir`/`Dir` plus
  `mkDir` and `unpackTag`;
* the iterator `AbiIterator` becomes `abiParse` / `abiIterator`,
  returning `Except AbiError (List ABIRec)` (zero or one record);
* the trimmer `_abi_trim` is embedded over real-valued scores
  (`baseScore`), mirroring the float formula `0.05 - 10 ** (q / -10)`.

The module predates Python 3; byte strings are plain strings there
(`_bytes_to_string` is the identity), so tag names are compared at the
byte level throughout.
-/

/-- A binary stream / byte buffer: each entry is one byte value. -/
abbrev Bytes := List ℕ

/-- `handle.seek(pos); handle.read(n)`: at most `n` bytes from `pos`. -/
def readBytes (s : Bytes) (pos n : ℕ) : Bytes :=
  (s.drop pos).take n

/-- Big-endian unsigned interpretation of a byte sequence. -/
def beU (bs : Bytes) : ℕ :=
  bs.foldl (fun a b => a * 256 + b) 0

/-- Big-endian interpretation, two's-complement signed when `signed`. -/
def decodeNum (signed : Bool) (bs : Bytes) : ℤ :=
  if signed ∧ 2 ^ (8 * bs.length - 1) ≤ beU bs then
    (beU bs : ℤ) - 2 ^ (8 * bs.length)
  else
    (beU bs : ℤ)

/-- One element produced by `struct.unpack`: an integer, a byte string
(format `s`), or an IEEE-754 float carried as its raw big-endian bytes
(formats `f`/`d`; no claim inspects float arithmetic, so the value is
kept at the bit-pattern level, which is a faithful injective view). -/
inductive SElem where
  | int (z : ℤ)
  | bytes (bs : Bytes)
  | float (raw : Bytes)
deriving DecidableEq, Repr

/-- Parses the body of a `struct` format string (after `'>'`) into
`(repeat count, format char)` groups; a char without digits counts 1,
digits accumulate decimally across the group prefix. -/
def parseFmtAux : List Char → ℕ → Bool → List (ℕ × Char)
  | [], _, _ => []
  | c :: rest, acc, sawDigits =>
    if c.isDigit then
      parseFmtAux rest (acc * 10 + (c.toNat - 48)) true
    else
      (if sawDigits then acc else 1, c) :: parseFmtAux rest 0 false

/-- Parses a `struct` format body into `(count, char)` groups. -/
def parseFmt (l : List Char) : List (ℕ × Char) :=
  parseFmtAux l 0 false

/-- Byte width of one element of a `struct` format char. -/
def charSize (c : Char) : ℕ :=
  if c = 'b' ∨ c = 'B' ∨ c = 's' then 1
  else if c = 'h' ∨ c = 'H' then 2
  else if c = 'i' ∨ c = 'I' ∨ c = 'f' then 4
  else if c = 'd' then 8
  else 0

/-- `struct.calcsize`: total byte size of a parsed format. -/
def calcsize (groups : List (ℕ × Char)) : ℕ :=
  groups.foldl (fun a g => a + g.1 * charSize g.2) 0

/-- Decodes `cnt` fixed-width integers of width `w` from a buffer. -/
def readElems (w : ℕ) (signed : Bool) : ℕ → Bytes → List SElem
  | 0, _ => []
  | k + 1, bs => .int (decodeNum signed (bs.take w)) :: readElems w signed k (bs.drop w)

/-- Decodes `cnt` floats of width `w`, kept as raw byte patterns. -/
def readFloats (w : ℕ) : ℕ → Bytes → List SElem
  | 0, _ => []
  | k + 1, bs => .float (bs.take w) :: readFloats w k (bs.drop w)

/-- Decodes one `(count, char)` format group from its exact byte span.
For `s` the count is the string length and a single element results,
as in `struct`. -/
def decodeGroup (cnt : ℕ) (c : Char) (bs : Bytes) : List SElem :=
  if c = 's' then [.bytes bs]
  else if c = 'b' then readElems 1 true cnt bs
  else if c = 'B' then readElems 1 false cnt bs
  else if c = 'h' then readElems 2 true cnt bs
  else if c = 'H' then readElems 2 false cnt bs
  else if c = 'i' then readElems 4 true cnt bs
  else if c = 'I' then readElems 4 false cnt bs
  else if c = 'f' then readFloats 4 cnt bs
  else if c = 'd' then readFloats 8 cnt bs
  else []

/-- Walks the format groups over the buffer. -/
def structUnpackGo : List (ℕ × Char) → Bytes → List SElem
  | [], _ => []
  | (cnt, c) :: rest, bs =>
    decodeGroup cnt c (bs.take (cnt * charSize c)) ++
      structUnpackGo rest (bs.drop (cnt * charSize c))

/-- `struct.unpack(fmt, buf)`: requires the buffer length to equal
`calcsize fmt` exactly (a short read raises `struct.error`). -/
def structUnpack (groups : List (ℕ × Char)) (bs : Bytes) : Option (List SElem) :=
  if bs.length = calcsize groups then some (structUnpackGo groups bs) else none

/-- The `_BYTEFMT` table: element type code to `struct` format body. -/
def BYTEFMT (code : ℕ) : Option (List Char) :=
  if code = 1 then some ['b']            -- byte
  else if code = 2 then some ['s']       -- char
  else if code = 3 then some ['H']       -- word
  else if code = 4 then some ['h']       -- short
  else if code = 5 then some ['i']       -- long
  else if code = 6 then some ['2', 'i']  -- rational, legacy unsupported
  else if code = 7 then some ['f']       -- float
  else if code = 8 then some ['d']       -- double
  else if code = 10 then some ['h', '2', 'B']  -- date
  else if code = 11 then some ['4', 'B']       -- time
  else if code = 12 then some ['2', 'i', '2', 'b'] -- thumb
  else if code = 13 then some ['B']      -- bool
  else if code = 14 then some ['2', 'h'] -- point, legacy unsupported
  else if code = 15 then some ['4', 'h'] -- rect, legacy unsupported
  else if code = 16 then some ['2', 'i'] -- vPoint, legacy unsupported
  else if code = 17 then some ['4', 'i'] -- vRect, legacy unsupported
  else if code = 18 then some ['s']      -- pString
  else if code = 19 then some ['s']      -- cString
  else if code = 20 then some ['2', 'i'] -- tag, legacy unsupported
  else none

/-- Little-endian decimal digits of `n`, via structural recursion on a
fuel bound so that the kernel can evaluate it. -/
def decimalDigitsAux : ℕ → ℕ → List ℕ
  | 0, _ => []
  | fuel + 1, n => if n = 0 then [] else n % 10 :: decimalDigitsAux fuel (n / 10)

/-- Decimal digit characters of `n`, i.e. Python `str(n)` for `n : ℕ`. -/
def decimalChars (n : ℕ) : List Char :=
  if n = 0 then ['0']
  else ((decimalDigitsAux n n).map (fun d => Char.ofNat (48 + d))).reverse

/-- `DecidableEq` for `Except`, so results of the embedded parser can
be compared by `decide`. -/
instance {E A : Type} [DecidableEq E] [DecidableEq A] : DecidableEq (Except E A) := fun a b =>
  match a, b with
  | .ok x, .ok y =>
    if h : x = y then .isTrue (congrArg Except.ok h)
    else .isFalse (fun he => h (Except.ok.inj he))
  | .error x, .error y =>
    if h : x = y then .isTrue (congrArg Except.error h)
    else .isFalse (fun he => h (Except.error.inj he))
  | .ok _, .error _ => .isFalse (fun he => Except.noConfusion he)
  | .error _, .ok _ => .isFalse (fun he => Except.noConfusion he)

/-- Error taxonomy of the parser, following the specification's names.
`unsupportedType` is listed in the taxonomy for a wanted tag whose type
code has no decode rule; the other constructors correspond to the
exceptions the module (or a collaborator it calls) can raise:
`formatError` for a bad magic, `invalidAlphabet` for a rejected caller
alphabet, `incompleteRecord` for missing mandatory tags,
`structError` for a short read inside `struct.unpack`, and
`typeError` / `valueError` for the TypeError / ValueError a decode
step can raise. -/
inductive AbiError where
  | formatError
  | invalidAlphabet
  | incompleteRecord
  | unsupportedType
  | structError
  | typeError
  | valueError
deriving DecidableEq, Repr

/-- A decoded tag value (`_Dir.tag_data`): Python `None`, a bare number,
a byte string, a float (raw bits), a tuple, a bool, or a formatted
date / time (carried structurally rather than as formatted text). -/
inductive TagValue where
  | none
  | int (z : ℤ)
  | str (bs : Bytes)
  | float (raw : Bytes)
  | tuple (l : List SElem)
  | bool (b : Bool)
  | date (y m d : ℤ)
  | time (h m s : ℤ)
deriving DecidableEq, Repr

/-- The unpacked data after the single-element unwrap step: either the
original tuple, or a bare scalar. -/
inductive PyData where
  | scalar (e : SElem)
  | tuple (l : List SElem)
deriving DecidableEq, Repr

/-- Python truthiness (`bool(data)`) of the unpacked data: a tuple is
truthy iff nonempty, an integer iff nonzero, a byte string iff
nonempty, a float iff its IEEE-754 bit pattern is neither +0 nor -0. -/
def truthy : PyData → Bool
  | .tuple l => decide (l ≠ [])
  | .scalar (.int z) => decide (z ≠ 0)
  | .scalar (.bytes bs) => decide (bs ≠ [])
  | .scalar (.float raw) =>
      decide (¬ (beU raw = 0 ∨ beU raw = 2 ^ (8 * raw.length - 1)))

/-- Gregorian leap-year rule used by `datetime.date`. -/
def isLeap (y : ℤ) : Bool :=
  y % 4 = 0 ∧ (y % 100 ≠ 0 ∨ y % 400 = 0)

/-- Days in a month, as validated by `datetime.date`. -/
def daysInMonth (y m : ℤ) : ℤ :=
  if m = 2 then (if isLeap y then 29 else 28)
  else if m = 4 ∨ m = 6 ∨ m = 9 ∨ m = 11 then 30
  else 31

/-- `str(datetime.date(*data))`: needs exactly three integer fields
(else TypeError) within `datetime`'s ranges (else ValueError). -/
def mkDate (data : List SElem) : Except AbiError TagValue :=
  match data with
  | [.int y, .int m, .int d] =>
    if 1 ≤ y ∧ y ≤ 9999 ∧ 1 ≤ m ∧ m ≤ 12 ∧ 1 ≤ d ∧ d ≤ daysInMonth y m then
      .ok (.date y m d)
    else .error .valueError
  | _ => .error .typeError

/-- `str(datetime.time(*data[:3]))`: up to three integer fields, the
missing ones defaulting to 0, validated to time-of-day ranges. -/
def mkTime (data : List SElem) : Except AbiError TagValue :=
  match data.take 3 with
  | [] => .ok (.time 0 0 0)
  | [.int h] =>
    if 0 ≤ h ∧ h < 24 then .ok (.time h 0 0) else .error .valueError
  | [.int h, .int m] =>
    if 0 ≤ h ∧ h < 24 ∧ 0 ≤ m ∧ m < 60 then .ok (.time h m 0)
    else .error .valueError
  | [.int h, .int m, .int s] =>
    if 0 ≤ h ∧ h < 24 ∧ 0 ≤ m ∧ m < 60 ∧ 0 ≤ s ∧ s < 60 then
      .ok (.time h m s)
    else .error .valueError
  | _ => .error .typeError

/-- Code 18 (pString): `data[1:]`, dropping the length-prefix byte
(slicing an integer raises TypeError). -/
def pString : PyData → Except AbiError TagValue
  | .scalar (.bytes bs) => .ok (.str (bs.drop 1))
  | .tuple l => .ok (.tuple (l.drop 1))
  | .scalar _ => .error .typeError

/-- Code 19 (cString): `data[:-1]`, dropping the terminator byte. -/
def cString : PyData → Except AbiError TagValue
  | .scalar (.bytes bs) => .ok (.str bs.dropLast)
  | .tuple l => .ok (.tuple l.dropLast)
  | .scalar _ => .error .typeError

/-- The plain return value for codes with no special handling. -/
def pdVal : PyData → TagValue
  | .scalar (.int z) => .int z
  | .scalar (.bytes bs) => .str bs
  | .scalar (.float raw) => .float raw
  | .tuple l => .tuple l

/-- The tail of `_Dir._unpack_tag` after `struct.unpack`: the
single-element unwrap (skipped for date/time codes 10 and 11) followed
by the per-code special cases. -/
def postprocess (code : ℕ) (data : List SElem) : Except AbiError TagValue :=
  let pd : PyData :=
    match data with
    | [e] => if code = 10 ∨ code = 11 then .tuple data else .scalar e
    | _ => .tuple data
  if code = 10 then mkDate data
  else if code = 11 then mkTime data
  else if code = 13 then .ok (.bool (truthy pd))
  else if code = 18 then pString pd
  else if code = 19 then cString pd
  else .ok (pdVal pd)

/-- The raw 9-tuple a directory entry is unpacked into (`dir_entry`):
the eight `'>4sI2H4I'` fields plus the appended entry start offset. -/
structure RawDir where
  name : Bytes
  number : ℕ
  elemCode : ℕ
  elemSize : ℕ
  elemNum : ℕ
  dataSize : ℕ
  dataOffset : ℕ
  handle : ℕ
  tagOffset : ℕ
deriving DecidableEq, Repr

/-- The `_Dir` object's stored fields (element size and the unused
handle word are not kept by `_Dir.__init__`). -/
structure Dir where
  tagName : Bytes
  tagNumber : ℕ
  elemCode : ℕ
  elemNum : ℕ
  dataSize : ℕ
  dataOffset : ℕ
  tagOffset : ℕ
deriving DecidableEq, Repr

/-- `_Dir.__init__` without the trailing `_unpack_tag` call: copies the
tuple fields, then redirects `data_offset` to 20 bytes past the
entry's own start when the payload is inline (`data_size <= 4`). -/
def mkDir (t : RawDir) : Dir :=
  let d : Dir :=
    { tagName := t.name, tagNumber := t.number, elemCode := t.elemCode,
      elemNum := t.elemNum, dataSize := t.dataSize,
      dataOffset := t.dataOffset, tagOffset := t.tagOffset }
  if d.dataSize ≤ 4 then { d with dataOffset := d.tagOffset + 20 } else d

/-- `_Dir._unpack_tag`: builds `'>' + count + base` (the count omitted
when the element count is 1), reads `calcsize` bytes at the resolved
data offset, unpacks, unwraps single-element results, and applies the
per-code special cases.  A type code outside `_BYTEFMT` returns
Python `None` (no exception is raised). -/
def unpackTag (d : Dir) (s : Bytes) : Except AbiError TagValue :=
  match BYTEFMT d.elemCode with
  | Option.none => .ok .none
  | some base =>
    let fmt := parseFmt ((if d.elemNum = 1 then [] else decimalChars d.elemNum) ++ base)
    match structUnpack fmt (readBytes s d.dataOffset (calcsize fmt)) with
    | Option.none => .error .structError
    | some data => postprocess d.elemCode data

/-- The header format `'>4sH4sI2H3I'`, as parsed groups. -/
def HEADFMT : List (ℕ × Char) :=
  parseFmt ['4', 's', 'H', '4', 's', 'I', '2', 'H', '3', 'I']

/-- The directory-entry format `'>4sI2H4I'`, as parsed groups. -/
def DIRFMT : List (ℕ × Char) :=
  parseFmt ['4', 's', 'I', '2', 'H', '4', 'I']

/-- Unpacks the 30-byte header and extracts the three fields the parser
uses: `header[5]` (entry element size), `header[6]` (entry count) and
`header[8]` (directory offset). -/
def parseHeaderVals (s : Bytes) : Except AbiError (ℕ × ℕ × ℕ) :=
  match structUnpack HEADFMT (readBytes s 0 (calcsize HEADFMT)) with
  | Option.none => .error .structError
  | some elems =>
    match elems with
    | [.bytes _, .int _, .bytes _, .int _, .int _, .int esz, .int enum,
       .int _, .int off] => .ok (esz.toNat, enum.toNat, off.toNat)
    | _ => .error .structError

/-- Unpacks one 28-byte directory entry at `start` and appends `start`
itself as the ninth tuple slot (`dir_entry + (start,)`). -/
def unpackDirEntry (s : Bytes) (start : ℕ) : Except AbiError RawDir :=
  match structUnpack DIRFMT (readBytes s start (calcsize DIRFMT)) with
  | Option.none => .error .structError
  | some elems =>
    match elems with
    | [.bytes nm, .int num, .int code, .int esz, .int enum, .int dsz,
       .int doff, .int hndl] =>
      .ok { name := nm, number := num.toNat, elemCode := code.toNat,
            elemSize := esz.toNat, elemNum := enum.toNat,
            dataSize := dsz.toNat, dataOffset := doff.toNat,
            handle := hndl.toNat, tagOffset := start }
    | _ => .error .structError

/-- Tag-name byte constants for the allowlisted keys. -/
def nmPBAS : Bytes := [80, 66, 65, 83]

def nmPCON : Bytes := [80, 67, 79, 78]

def nmSMPL : Bytes := [83, 77, 80, 76]

def nmRUND : Bytes := [82, 85, 78, 68]

def nmRUNT : Bytes := [82, 85, 78, 84]

def nmTUBE : Bytes := [84, 85, 66, 69]

def nmDySN : Bytes := [68, 121, 83, 78]

def nmGTyp : Bytes := [71, 84, 121, 112]

def nmMODL : Bytes := [77, 79, 68, 76]

/-- The wanted-key allowlist: `_EXTRACT` keys plus `_SPCTAGS`, as
(4-byte tag name, tag number) pairs. -/
def wantedKeys : List (Bytes × ℕ) :=
  [(nmTUBE, 1), (nmDySN, 1), (nmGTyp, 1), (nmMODL, 1),
   (nmPBAS, 2), (nmPCON, 2), (nmSMPL, 1),
   (nmRUND, 1), (nmRUND, 2), (nmRUNT, 1), (nmRUNT, 2)]

/-- Base classes of the external alphabet hierarchy the module checks
against (`Alphabet._get_base_alphabet` followed by `isinstance`):
a base alphabet is generic single-letter, generic nucleotide, DNA,
RNA, or protein. -/
inductive BaseAlph where
  | generic
  | nucleotide
  | dna
  | rna
  | protein
deriving DecidableEq, Repr

/-- An alphabet object as far as this module can observe it: its base
class and, for DNA, whether it is the ambiguous variant. -/
structure Alphab where
  base : BaseAlph
  ambiguous : Bool
deriving DecidableEq, Repr

/-- `IUPAC.ambiguous_dna`. -/
def ambiguousDNA : Alphab := { base := .dna, ambiguous := true }

/-- `IUPAC.unambiguous_dna`. -/
def unambiguousDNA : Alphab := { base := .dna, ambiguous := false }

/-- The alphabet guard at the top of `AbiIterator`: a caller-supplied
alphabet whose base class is protein or RNA raises, anything else
(including non-DNA bases) passes. -/
def checkAlphabet (a : Option Alphab) : Except AbiError Unit :=
  match a with
  | Option.none => .ok ()
  | some al =>
    if al.base = .protein then .error .invalidAlphabet
    else if al.base = .rna then .error .invalidAlphabet
    else .ok ()

/-- Byte values of the ambiguity codes `'KYWMRS'`. -/
def ambigBytes : Bytes := [75, 89, 87, 77, 82, 83]

/-- Alphabet inference from the PBAS2 value (`set(seq) & set('KYWMRS')`
nonempty picks ambiguous DNA).  A non-iterable value raises TypeError;
the formatted date/time strings and numeric tuples never contain the
ambiguity characters. -/
def inferAlphabet (v : TagValue) : Except AbiError Alphab :=
  match v with
  | .str bs => .ok (if bs.any (fun b => b ∈ ambigBytes) then ambiguousDNA else unambiguousDNA)
  | .tuple _ => .ok unambiguousDNA
  | .date _ _ _ => .ok unambiguousDNA
  | .time _ _ _ => .ok unambiguousDNA
  | _ => .error .typeError

/-- The PCON2 postprocessing (`[ord(val) for val in tag_data]`): needs
an iterable byte string, yielding the per-byte quality integers. -/
def qualOf (v : TagValue) : Except AbiError (List ℕ) :=
  match v with
  | .str bs => .ok bs
  | _ => .error .typeError

/-- The mutable loop state of `AbiIterator`: the alphabet variable, the
tag values collected so far, the `times` dict and the `annot` dict. -/
structure Collected where
  alphabet : Option Alphab
  seq : Option TagValue
  qual : Option (List ℕ)
  sampleId : Option TagValue
  rund1 : Option TagValue
  rund2 : Option TagValue
  runt1 : Option TagValue
  runt2 : Option TagValue
  sampleWell : Option TagValue
  dye : Option TagValue
  polymer : Option TagValue
  machineModel : Option TagValue
deriving DecidableEq, Repr

/-- The loop state at the start of the iteration. -/
def initCollected (a : Option Alphab) : Collected :=
  { alphabet := a, seq := Option.none, qual := Option.none,
    sampleId := Option.none, rund1 := Option.none, rund2 := Option.none,
    runt1 := Option.none, runt2 := Option.none, sampleWell := Option.none,
    dye := Option.none, polymer := Option.none, machineModel := Option.none }

/-- One iteration of the tag-dispatch in `AbiIterator`'s for-loop,
for a wanted key `(name, num)` with decoded value `v`. -/
def storeTag (acc : Collected) (name : Bytes) (num : ℕ) (v : TagValue) :
    Except AbiError Collected :=
  if name = nmPBAS ∧ num = 2 then
    match acc.alphabet with
    | some _ => .ok { acc with seq := some v }
    | Option.none =>
      match inferAlphabet v with
      | .error e => .error e
      | .ok al => .ok { acc with seq := some v, alphabet := some al }
  else if name = nmPCON ∧ num = 2 then
    match qualOf v with
    | .error e => .error e
    | .ok q => .ok { acc with qual := some q }
  else if name = nmSMPL ∧ num = 1 then .ok { acc with sampleId := some v }
  else if name = nmRUND ∧ num = 1 then .ok { acc with rund1 := some v }
  else if name = nmRUND ∧ num = 2 then .ok { acc with rund2 := some v }
  else if name = nmRUNT ∧ num = 1 then .ok { acc with runt1 := some v }
  else if name = nmRUNT ∧ num = 2 then .ok { acc with runt2 := some v }
  else if name = nmTUBE ∧ num = 1 then .ok { acc with sampleWell := some v }
  else if name = nmDySN ∧ num = 1 then .ok { acc with dye := some v }
  else if name = nmGTyp ∧ num = 1 then .ok { acc with polymer := some v }
  else if name = nmMODL ∧ num = 1 then .ok { acc with machineModel := some v }
  else .ok acc

/-- The directory walk (`_abi_parse_header` fused with the consuming
for-loop): entry `i` sits at `off + i * esz`; only allowlisted keys
are turned into `_Dir` objects (which unpacks their data) and
dispatched; the rest are skipped. -/
def collectLoop (s : Bytes) (esz off : ℕ) :
    ℕ → ℕ → Collected → Except AbiError Collected
  | 0, _, acc => .ok acc
  | n + 1, i, acc =>
    match unpackDirEntry s (off + i * esz) with
    | .error e => .error e
    | .ok t =>
      if (t.name, t.number) ∈ wantedKeys then
        match unpackTag (mkDir t) s with
        | .error e => .error e
        | .ok v =>
          match storeTag acc t.name t.number v with
          | .error e => .error e
          | .ok acc2 => collectLoop s esz off n (i + 1) acc2
      else collectLoop s esz off n (i + 1) acc

/-- Bytes of the `'ABIF'` magic. -/
def abifMagic : Bytes := [65, 66, 73, 70]

/-- The scan phase of `AbiIterator`: read the 4-byte marker (an empty
read ends the iteration with no record: `.ok Option.none`), check the
magic, unpack the header, and walk the directory collecting all wanted
tags.  The caller's alphabet seeds the loop state. -/
def collectTags (s : Bytes) (a : Option Alphab) :
    Except AbiError (Option Collected) :=
  let marker := readBytes s 0 4
  if marker = [] then .ok Option.none
  else if marker = abifMagic then
    match parseHeaderVals s with
    | .error e => .error e
    | .ok (esz, enum, off) =>
      match collectLoop s esz off enum 0 (initCollected a) with
      | .error e => .error e
      | .ok c => .ok (some c)
  else .error .formatError

/-- The annotations dictionary of the produced record: the four
`_EXTRACT` entries plus the two composite run timestamps (kept as the
pairs of tag values the `'%s %s'` formatting combines, a missing
component being `Option.none`, i.e. the empty string). -/
structure Annot where
  sampleWell : Option TagValue
  dye : Option TagValue
  polymer : Option TagValue
  machineModel : Option TagValue
  runStart : Option TagValue × Option TagValue
  runFinish : Option TagValue × Option TagValue
deriving DecidableEq, Repr

/-- The produced record (the parts of the external `SeqRecord` this
module fills in): sequence bytes, per-base qualities, sample id,
display name, annotations and the alphabet. -/
structure ABIRec where
  seq : Bytes
  qual : List ℕ
  id : TagValue
  name : String
  annotations : Annot
  alphabet : Option Alphab
deriving DecidableEq, Repr

/-- Builds the record from the final loop state (lines 149-163 of the
source).  The mandatory sequence, quality and sample-id values must
all be present, otherwise the record construction fails with the
incomplete-record error; the external record type also rejects a
quality list whose length differs from the sequence length. -/
def assembleRecord (c : Collected) : Except AbiError ABIRec :=
  match c.seq, c.qual, c.sampleId with
  | some sv, some q, some idv =>
    match sv with
    | .str bs =>
      if q.length = bs.length then
        .ok { seq := bs, qual := q, id := idv, name := "",
              annotations :=
                { sampleWell := c.sampleWell, dye := c.dye,
                  polymer := c.polymer, machineModel := c.machineModel,
                  runStart := (c.rund1, c.runt1),
                  runFinish := (c.rund2, c.runt2) },
              alphabet := c.alphabet }
      else .error .valueError
    | _ => .error .typeError
  | _, _, _ => .error .incompleteRecord

/-- `AbiIterator` before the optional trimming: the alphabet guard,
then the scan, then the record assembly; an empty stream yields an
empty record list. -/
def abiParse (s : Bytes) (a : Option Alphab) : Except AbiError (List ABIRec) :=
  match checkAlphabet a with
  | .error e => .error e
  | .ok _ =>
    match collectTags s a with
    | .error e => .error e
    | .ok Option.none => .ok []
    | .ok (some c) =>
      match assembleRecord c with
      | .error e => .error e
      | .ok r => .ok [r]

/-- The per-base score `cutoff - (10 ** (qual / -10.0))` with
`cutoff = 0.05`, over the reals. -/
noncomputable def baseScore (q : ℕ) : ℝ :=
  0.05 - (10 : ℝ) ^ ((q : ℝ) / (-10))

/-- `score_list`: the per-base scores of the record's qualities. -/
noncomputable def scoreListOf (r : ABIRec) : List ℝ :=
  r.qual.map baseScore

/-- The cumulative-score loop body: starting from the running value
`prev`, each score `prev + s` is clamped to 0 when negative, and the
clamped value is both appended and carried. -/
noncomputable def cumAux (prev : ℝ) : List ℝ → List ℝ
  | [] => []
  | s :: rest =>
    if prev + s < 0 then 0 :: cumAux 0 rest
    else (prev + s) :: cumAux (prev + s) rest

/-- `cummul_score`: a leading 0 (the first base is never scored),
then the clamped cumulative sums of `score_list[1:]`. -/
noncomputable def cummulScoreOf (r : ABIRec) : List ℝ :=
  0 :: cumAux 0 (scoreListOf r).tail

/-- The `trim_start` computation: walking `score_list[1:]` with the
running clamped sum (which stays 0 until the first non-negative step),
the loop index of the first step whose sum is not negative is recorded
once; if no step qualifies the initial value 0 remains. -/
noncomputable def trimStartAux (prev : ℝ) (i : ℕ) : List ℝ → ℕ
  | [] => 0
  | s :: rest => if prev + s < 0 then trimStartAux 0 (i + 1) rest else i

/-- `trim_start` of a record (loop indices start at 1). -/
noncomputable def trimStartOf (r : ABIRec) : ℕ :=
  trimStartAux 0 1 (scoreListOf r).tail

/-- Python `max` over a nonempty list (the empty case is unreachable:
`cummul_score` always starts with 0). -/
noncomputable def listMax : List ℝ → ℝ
  | [] => 0
  | x :: xs => xs.foldl max x

/-- Python `list.index`: index of the first occurrence (the
not-found case, which returns the length here, is unreachable at the
call site because the element is the list's maximum). -/
noncomputable def idxOf (x : ℝ) : List ℝ → ℕ
  | [] => 0
  | y :: ys => if y = x then 0 else idxOf x ys + 1

/-- `trim_finish`: index of the first occurrence of the highest
cumulative score. -/
noncomputable def trimFinishOf (r : ABIRec) : ℕ :=
  idxOf (listMax (cummulScoreOf r)) (cummulScoreOf r)

/-- Modelled from the spec: slicing the external record type
(`seq_record[a:b]`) re-slices the bases and the per-base qualities
consistently and carries the other metadata over unchanged (the
`SeqRecord` class itself is outside this repository). -/
def sliceRec (r : ABIRec) (a b : ℕ) : ABIRec :=
  { r with seq := (r.seq.drop a).take (b - a),
           qual := (r.qual.drop a).take (b - a) }

/-- `_abi_trim`: records of length at most 20 are returned unchanged,
longer ones are sliced to `[trim_start, trim_finish)`. -/
noncomputable def abi_trim (r : ABIRec) : ABIRec :=
  if r.seq.length ≤ 20 then r
  else sliceRec r (trimStartOf r) (trimFinishOf r)

/-- `AbiIterator(handle, alphabet, trim)`: the parse, with the yielded
record trimmed when the flag is set. -/
noncomputable def abiIterator (s : Bytes) (a : Option Alphab) (trim : Bool) :
    Except AbiError (List ABIRec) :=
  match abiParse s a with
  | .error e => .error e
  | .ok rs => .ok (rs.map (fun r => if trim then abi_trim r else r))

/-! ### Format-string parsing lemmas -/

theorem digitChar_isDigit {d : ℕ} (hd : d < 10) :
    (Char.ofNat (48 + d)).isDigit = true := by
  interval_cases d <;> decide

theorem digitChar_toNat {d : ℕ} (hd : d < 10) :
    (Char.ofNat (48 + d)).toNat - 48 = d := by
  interval_cases d <;> decide

theorem parseFmtAux_digits (L : List ℕ) (hL : ∀ d ∈ L, d < 10) (c : Char)
    (hc : c.isDigit = false) (rest : List Char) (a : ℕ) :
    parseFmtAux (L.map (fun d => Char.ofNat (48 + d)) ++ c :: rest) a true
      = (L.foldl (fun x d => x * 10 + d) a, c) :: parseFmtAux rest 0 false := by
  induction L generalizing a with
  | nil =>
    simp [parseFmtAux, hc]
  | cons d L ih =>
    have hd : d < 10 := hL d (by simp)
    simp only [List.map_cons, List.cons_append, parseFmtAux,
      digitChar_isDigit hd, if_true, List.foldl_cons]
    rw [digitChar_toNat hd]
    exact ih (fun x hx => hL x (by simp [hx])) _

theorem foldl_digits_reverse (K : List ℕ) (a : ℕ) :
    K.reverse.foldl (fun x d => x * 10 + d) a
      = a * 10 ^ K.length + Nat.ofDigits 10 K := by
  induction K generalizing a with
  | nil => simp
  | cons d K ih =>
    simp only [List.reverse_cons, List.foldl_append, List.foldl_cons,
      List.foldl_nil, ih, List.length_cons, Nat.ofDigits_cons]
    ring_nf

theorem decimalDigitsAux_eq (fuel : ℕ) :
    ∀ n, n ≤ fuel → decimalDigitsAux fuel n = Nat.digits 10 n := by
  induction fuel with
  | zero =>
    intro n hn
    have h0 : n = 0 := by omega
    simp [decimalDigitsAux, h0]
  | succ fuel ih =>
    intro n hn
    by_cases h0 : n = 0
    · simp [decimalDigitsAux, h0]
    · have hdiv : n / 10 ≤ fuel := by
        have := Nat.div_lt_self (Nat.pos_of_ne_zero h0) (by norm_num : 1 < 10)
        omega
      unfold decimalDigitsAux
      rw [if_neg h0, ih (n / 10) hdiv,
        Nat.digits_def' (by norm_num : 1 < 10) (Nat.pos_of_ne_zero h0)]

theorem parseFmt_decimal (n : ℕ) (hn : n ≠ 0) (c : Char)
    (hc : c.isDigit = false) (rest : List Char) :
    parseFmt (decimalChars n ++ c :: rest) = (n, c) :: parseFmt rest := by
  have hdig : ∀ d ∈ (Nat.digits 10 n).reverse, d < 10 := by
    intro d hd
    exact Nat.digits_lt_base (by norm_num) (List.mem_reverse.mp hd)
  have hne : (Nat.digits 10 n).reverse ≠ [] := by
    simp [Nat.digits_ne_nil_iff_ne_zero, hn]
  unfold decimalChars
  rw [if_neg hn, decimalDigitsAux_eq n n le_rfl, ← List.map_reverse]
  obtain ⟨d, L, hdL⟩ : ∃ d L, (Nat.digits 10 n).reverse = d :: L := by
    cases h : (Nat.digits 10 n).reverse with
    | nil => exact absurd h hne
    | cons d L => exact ⟨d, L, rfl⟩
  rw [hdL]
  have hd : d < 10 := hdig d (by rw [hdL]; simp)
  unfold parseFmt
  simp only [List.map_cons, List.cons_append, parseFmtAux,
    digitChar_isDigit hd, if_true]
  rw [digitChar_toNat hd, List.append_eq]
  rw [parseFmtAux_digits L (fun x hx => hdig x (by rw [hdL]; simp [hx])) c hc rest]
  have hval : L.foldl (fun x d => x * 10 + d) (0 * 10 + d) = n := by
    have h0 : (0 : ℕ) * 10 + d = d := by omega
    have : (d :: L).foldl (fun x d => x * 10 + d) 0 = n := by
      rw [← hdL, foldl_digits_reverse]
      simp [Nat.ofDigits_digits]
    simpa [h0] using this
  rw [hval]

theorem readElems_length (w : ℕ) (sg : Bool) :
    ∀ (k : ℕ) (bs : Bytes), (readElems w sg k bs).length = k := by
  intro k
  induction k with
  | zero => intro bs; rfl
  | succ k ih => intro bs; simp [readElems, ih]

theorem structUnpack_single_B {n : ℕ} {bs : Bytes} {data : List SElem}
    (h : structUnpack [(n, 'B')] bs = some data) : data.length = n := by
  unfold structUnpack at h
  split at h
  · cases h
    simp only [structUnpackGo, List.append_nil]
    have hB : decodeGroup n 'B' (bs.take (n * charSize 'B'))
        = readElems 1 false n (bs.take (n * charSize 'B')) := by
      unfold decodeGroup
      norm_num
      rw [if_neg (by decide), if_neg (by decide)]
    rw [hB, readElems_length]
  · cases h

/-! ### The per-base score never vanishes -/

theorem baseScore_ne_zero (q : ℕ) : baseScore q ≠ 0 := by
  unfold baseScore
  intro h
  have heq : (10 : ℝ) ^ ((q : ℝ) / (-10)) = 0.05 := by linarith
  have h10 : (0 : ℝ) ≤ 10 := by norm_num
  have hpow : ((10 : ℝ) ^ ((q : ℝ) / (-10))) ^ (10 : ℕ)
      = ((10 : ℝ) ^ (q : ℕ))⁻¹ := by
    rw [← Real.rpow_natCast ((10 : ℝ) ^ ((q : ℝ) / (-10))) 10,
      ← Real.rpow_mul h10]
    have hexp : (q : ℝ) / (-10) * ((10 : ℕ) : ℝ) = -(q : ℝ) := by
      push_cast
      ring
    rw [hexp, Real.rpow_neg h10, Real.rpow_natCast]
  rw [heq] at hpow
  have h20 : (10 : ℝ) ^ (q : ℕ) = ((0.05 : ℝ) ^ (10 : ℕ))⁻¹ := by
    rw [← inv_inv ((10 : ℝ) ^ (q : ℕ)), ← hpow]
  have h20v : ((0.05 : ℝ) ^ (10 : ℕ))⁻¹ = ((20 : ℕ) : ℝ) ^ (10 : ℕ) := by
    norm_num
  have hcast : ((10 : ℕ) : ℝ) ^ q = ((20 : ℕ) : ℝ) ^ (10 : ℕ) := by
    push_cast
    rw [h20, h20v]
    push_cast
    ring
  have hn : (10 : ℕ) ^ q = 20 ^ 10 := by exact_mod_cast hcast
  rcases le_or_lt q 13 with h13 | h14
  · have hle : (10 : ℕ) ^ q ≤ 10 ^ 13 := Nat.pow_le_pow_right (by norm_num) h13
    rw [hn] at hle
    norm_num at hle
  · have hge : (10 : ℕ) ^ 14 ≤ 10 ^ q :=
      Nat.pow_le_pow_right (by norm_num) h14
    rw [hn] at hge
    norm_num at hge

/-! ### Cumulative-score loop lemmas -/

theorem cumAux_length (l : List ℝ) : ∀ prev, (cumAux prev l).length = l.length := by
  induction l with
  | nil => intro prev; rfl
  | cons s rest ih =>
    intro prev
    unfold cumAux
    by_cases hs : prev + s < 0
    · rw [if_pos hs]
      simp [ih]
    · rw [if_neg hs]
      simp [ih]

theorem cumAux_nonneg (l : List ℝ) :
    ∀ prev x, x ∈ cumAux prev l → 0 ≤ x := by
  induction l with
  | nil => intro prev x hx; simp [cumAux] at hx
  | cons s rest ih =>
    intro prev x hx
    unfold cumAux at hx
    by_cases hs : prev + s < 0
    · rw [if_pos hs] at hx
      rcases List.mem_cons.mp hx with h0 | hrest
      · rw [h0]
      · exact ih 0 x hrest
    · rw [if_neg hs] at hx
      rcases List.mem_cons.mp hx with h0 | hrest
      · rw [h0]; linarith
      · exact ih (prev + s) x hrest

theorem trimStartAux_cons (prev : ℝ) (i : ℕ) (s : ℝ) (rest : List ℝ) :
    trimStartAux prev i (s :: rest)
      = if prev + s < 0 then trimStartAux 0 (i + 1) rest else i := rfl

theorem cumAux_cons (prev s : ℝ) (rest : List ℝ) :
    cumAux prev (s :: rest)
      = if prev + s < 0 then 0 :: cumAux 0 rest
        else (prev + s) :: cumAux (prev + s) rest := rfl

theorem trimStart_cum_spec (l : List ℝ) (hne : ∀ x ∈ l, x ≠ 0) : ∀ i : ℕ,
    (trimStartAux 0 i l = 0 ∧ ∀ j, (cumAux 0 l).getD j 0 = 0)
    ∨ (∃ k, k < l.length ∧ trimStartAux 0 i l = i + k ∧ 0 < l.getD k 0 ∧
        (∀ j < k, (cumAux 0 l).getD j 0 = 0) ∧
        (cumAux 0 l).getD k 0 = l.getD k 0) := by
  induction l with
  | nil =>
    intro i
    left
    constructor
    · rfl
    · intro j; simp [cumAux]
  | cons s rest ih =>
    intro i
    have hs0 : s ≠ 0 := hne s (List.mem_cons_self s rest)
    have hner : ∀ x ∈ rest, x ≠ 0 := fun x hx => hne x (List.mem_cons_of_mem s hx)
    by_cases hs : (0 : ℝ) + s < 0
    · rw [trimStartAux_cons, cumAux_cons, if_pos hs, if_pos hs]
      rcases ih hner (i + 1) with ⟨h1, h2⟩ | ⟨k, hk, hts, hpos, hzero, hvalk⟩
      · left
        refine ⟨h1, fun j => ?_⟩
        cases j with
        | zero => simp
        | succ j => simpa using h2 j
      · right
        refine ⟨k + 1, by simpa using Nat.succ_lt_succ hk, by omega, by simpa using hpos,
          fun j hj => ?_, by simpa using hvalk⟩
        cases j with
        | zero => simp
        | succ j => simpa using hzero j (by omega)
    · have hspos : 0 < s := by
        have h0 : 0 ≤ s := by
          have := not_lt.mp hs
          linarith
        exact lt_of_le_of_ne h0 (Ne.symm hs0)
      rw [trimStartAux_cons, cumAux_cons, if_neg hs, if_neg hs]
      right
      refine ⟨0, by simp, by omega, by simpa using hspos, fun j hj => by omega, by simp⟩

/-! ### Maximum and first-index lemmas -/

theorem le_foldl_max (xs : List ℝ) : ∀ a, a ≤ xs.foldl max a := by
  induction xs with
  | nil => intro a; simp
  | cons y ys ih =>
    intro a
    calc a ≤ max a y := le_max_left a y
    _ ≤ ys.foldl max (max a y) := ih (max a y)

theorem mem_le_foldl_max (xs : List ℝ) : ∀ a x, x ∈ xs → x ≤ xs.foldl max a := by
  induction xs with
  | nil => intro a x hx; simp at hx
  | cons y ys ih =>
    intro a x hx
    rcases List.mem_cons.mp hx with h | h
    · rw [h]
      calc y ≤ max a y := le_max_right a y
      _ ≤ ys.foldl max (max a y) := le_foldl_max ys (max a y)
    · exact ih (max a y) x h

theorem foldl_max_mem (xs : List ℝ) : ∀ a, xs.foldl max a ∈ a :: xs := by
  induction xs with
  | nil => intro a; simp
  | cons y ys ih =>
    intro a
    have h := ih (max a y)
    rcases List.mem_cons.mp h with h0 | h1
    · rcases max_choice a y with hc | hc
      · rw [List.foldl_cons, h0, hc]
        exact List.mem_cons_self a (y :: ys)
      · rw [List.foldl_cons, h0, hc]
        exact List.mem_cons_of_mem a (List.mem_cons_self y ys)
    · rw [List.foldl_cons]
      exact List.mem_cons_of_mem a (List.mem_cons_of_mem y h1)

theorem le_listMax (l : List ℝ) (x : ℝ) (hx : x ∈ l) : x ≤ listMax l := by
  cases l with
  | nil => simp at hx
  | cons a xs =>
    rcases List.mem_cons.mp hx with h | h
    · rw [h]; exact le_foldl_max xs a
    · exact mem_le_foldl_max xs a x h

theorem listMax_mem (l : List ℝ) (h : l ≠ []) : listMax l ∈ l := by
  cases l with
  | nil => exact absurd rfl h
  | cons a xs => exact foldl_max_mem xs a

theorem idxOf_getD (l : List ℝ) (x : ℝ) (h : x ∈ l) :
    l.getD (idxOf x l) 0 = x := by
  induction l with
  | nil => simp at h
  | cons y ys ih =>
    unfold idxOf
    by_cases hy : y = x
    · rw [if_pos hy]; simpa using hy
    · rw [if_neg hy]
      have hx : x ∈ ys := by
        rcases List.mem_cons.mp h with h0 | h0
        · exact absurd h0.symm hy
        · exact h0
      simpa using ih hx

theorem idxOf_lt_length (l : List ℝ) (x : ℝ) (h : x ∈ l) :
    idxOf x l < l.length := by
  induction l with
  | nil => simp at h
  | cons y ys ih =>
    unfold idxOf
    by_cases hy : y = x
    · rw [if_pos hy]; simp
    · rw [if_neg hy]
      have hx : x ∈ ys := by
        rcases List.mem_cons.mp h with h0 | h0
        · exact absurd h0.symm hy
        · exact h0
      simpa using ih hx

theorem le_idxOf (l : List ℝ) (x : ℝ) :
    ∀ m, m ≤ l.length → (∀ j < m, l.getD j 0 ≠ x) → m ≤ idxOf x l := by
  induction l with
  | nil =>
    intro m hm _
    have hm0 : m = 0 := by simpa using hm
    simp [hm0]
  | cons y ys ih =>
    intro m hm hj
    cases m with
    | zero => exact Nat.zero_le _
    | succ m =>
      have hy : y ≠ x := by simpa using hj 0 (Nat.succ_pos m)
      unfold idxOf
      rw [if_neg hy]
      have := ih m (by simpa using hm) (fun j hjm => by simpa using hj (j + 1) (by omega))
      omega

/-! ### Unfolding lemma for the tag decoder -/

theorem unpackTag_eq_of_fmt (d : Dir) (s : Bytes) (base : List Char)
    (hB : BYTEFMT d.elemCode = some base) :
    unpackTag d s =
      match structUnpack
          (parseFmt ((if d.elemNum = 1 then [] else decimalChars d.elemNum) ++ base))
          (readBytes s d.dataOffset
            (calcsize (parseFmt
              ((if d.elemNum = 1 then [] else decimalChars d.elemNum) ++ base)))) with
      | Option.none => .error .structError
      | some data => postprocess d.elemCode data := by
  unfold unpackTag
  rw [hB]

/-- A wanted-path directory entry whose element type code (9) has no
decode rule in `_BYTEFMT`. -/
def dirUnsupported : Dir :=
  { tagName := nmPBAS, tagNumber := 2, elemCode := 9, elemNum := 1,
    dataSize := 4, dataOffset := 20, tagOffset := 0 }

/-- Claim C1 (counterexample): decoding a directory entry whose element
type code has no decode rule does not fail with the unsupported-type
error; it completes, returning the value `None`. -/
theorem C1_counterexample :
    unpackTag dirUnsupported [] = .ok TagValue.none ∧
    unpackTag dirUnsupported [] ≠ .error AbiError.unsupportedType := by
  have h1 : unpackTag dirUnsupported [] = .ok TagValue.none := rfl
  refine ⟨h1, ?_⟩
  rw [h1]
  exact fun h => Except.noConfusion h

/-- Claim C1 (amended): for every directory entry whose element type
code has no decode rule, decoding completes with the value `None`
(no `UnsupportedTypeError` — or any error — is raised). -/
theorem C1_unsupported_code_returns_none (d : Dir) (s : Bytes)
    (h : BYTEFMT d.elemCode = Option.none) :
    unpackTag d s = .ok TagValue.none := by
  unfold unpackTag
  rw [h]

theorem C1_unsupported_code_returns_none_witness :
    BYTEFMT dirUnsupported.elemCode = Option.none ∧
    unpackTag dirUnsupported [] = .ok TagValue.none :=
  ⟨by decide, C1_unsupported_code_returns_none dirUnsupported [] (by decide)⟩

/-- Claim C7: the resolved data location of a directory entry is the
entry's own start plus 20 when the total data size is at most 4
(inline data, stored offset ignored), and the stored offset value
otherwise. -/
theorem C7_data_location (t : RawDir) :
    (mkDir t).dataOffset =
      if t.dataSize ≤ 4 then t.tagOffset + 20 else t.dataOffset := by
  unfold mkDir
  by_cases h : t.dataSize ≤ 4
  · simp [h]
  · simp [h]

/-- Claim C10: for a tag with element type code 13 (bool) and element
count greater than 1, any successfully decoded value is `True`
regardless of the bytes read, because the single-element unwrap does
not apply and Python truthiness of a nonempty tuple is `True`. -/
theorem C10_bool_multielement_true (d : Dir) (s : Bytes) (v : TagValue)
    (hc : d.elemCode = 13) (hn : 1 < d.elemNum)
    (hok : unpackTag d s = .ok v) : v = TagValue.bool true := by
  have hB : BYTEFMT d.elemCode = some ['B'] := by rw [hc]; rfl
  rw [unpackTag_eq_of_fmt d s ['B'] hB] at hok
  rw [if_neg (by omega : ¬ d.elemNum = 1)] at hok
  rw [parseFmt_decimal d.elemNum (by omega) 'B' (by decide) []] at hok
  rw [show parseFmt ([] : List Char) = [] from rfl] at hok
  rcases hsu : structUnpack [(d.elemNum, 'B')]
      (readBytes s d.dataOffset (calcsize [(d.elemNum, 'B')])) with _ | data
  · rw [hsu] at hok
    exact absurd hok (by simp)
  · rw [hsu] at hok
    have hlen := structUnpack_single_B hsu
    rcases data with _ | ⟨e1, data1⟩
    · simp at hlen
      omega
    · rcases data1 with _ | ⟨e2, data2⟩
      · simp at hlen
        omega
      · rw [hc] at hok
        simp only [postprocess] at hok
        norm_num at hok
        simp [truthy] at hok
        exact hok.symm

/-- A bool-typed (code 13) entry with two elements whose payload bytes
are both zero. -/
def dirBool2 : Dir :=
  { tagName := nmPBAS, tagNumber := 2, elemCode := 13, elemNum := 2,
    dataSize := 2, dataOffset := 0, tagOffset := 0 }

theorem C10_bool_multielement_true_witness :
    dirBool2.elemCode = 13 ∧ 1 < dirBool2.elemNum ∧
    ∃ v, unpackTag dirBool2 [0, 0] = .ok v ∧ v = TagValue.bool true :=
  ⟨rfl, by decide, TagValue.bool true, rfl,
    C10_bool_multielement_true dirBool2 [0, 0] (TagValue.bool true)
      rfl (by decide) rfl⟩

/-! ### Remaining list helpers for the trim theorems -/

theorem getD_mem (l : List ℝ) : ∀ j, j < l.length → l.getD j 0 ∈ l := by
  induction l with
  | nil => intro j hj; simp at hj
  | cons a xs ih =>
    intro j hj
    cases j with
    | zero => simp
    | succ j =>
      have := ih j (by simpa using hj)
      simp only [List.getD_cons_succ]
      exact List.mem_cons_of_mem a this

theorem getD_ne_of_lt_idxOf (l : List ℝ) (x : ℝ) :
    ∀ j, j < idxOf x l → l.getD j 0 ≠ x := by
  induction l with
  | nil => intro j hj; simp [idxOf] at hj
  | cons y ys ih =>
    intro j hj
    by_cases hy : y = x
    · unfold idxOf at hj
      rw [if_pos hy] at hj
      omega
    · unfold idxOf at hj
      rw [if_neg hy] at hj
      cases j with
      | zero => simpa using hy
      | succ j =>
        simp only [List.getD_cons_succ]
        exact ih j (by omega)

theorem scoreList_tail_ne_zero (r : ABIRec) :
    ∀ x ∈ (scoreListOf r).tail, x ≠ 0 := by
  intro x hx
  have hx2 : x ∈ scoreListOf r := List.mem_of_mem_tail hx
  obtain ⟨q, _, rfl⟩ := List.mem_map.mp hx2
  exact baseScore_ne_zero q

theorem cummulScore_length (r : ABIRec) :
    (cummulScoreOf r).length = 1 + (r.qual.length - 1) := by
  unfold cummulScoreOf
  rw [List.length_cons, cumAux_length]
  simp [scoreListOf]
  omega

/-! ### Claims about the trimming algorithm -/

/-- Claim C2: for a record longer than 20, `trim_start` is the first
index (necessarily at least 1) at which the zero-clamped cumulative
score becomes strictly positive, recorded once; it stays 0 when the
cumulative score never becomes strictly positive. -/
theorem C2_trim_start_first_positive (r : ABIRec)
    (_hq : r.qual.length = r.seq.length) (_hl : 20 < r.seq.length) :
    (1 ≤ trimStartOf r ∧ 0 < (cummulScoreOf r).getD (trimStartOf r) 0 ∧
      ∀ j < trimStartOf r, ¬ 0 < (cummulScoreOf r).getD j 0)
    ∨ (trimStartOf r = 0 ∧ ∀ j, ¬ 0 < (cummulScoreOf r).getD j 0) := by
  rcases trimStart_cum_spec (scoreListOf r).tail (scoreList_tail_ne_zero r) 1 with
    ⟨h1, h2⟩ | ⟨k, hk, hts, hpos, hzero, hvalk⟩
  · right
    refine ⟨h1, fun j => ?_⟩
    cases j with
    | zero => simp [cummulScoreOf]
    | succ j =>
      unfold cummulScoreOf
      rw [List.getD_cons_succ, h2 j]
      exact lt_irrefl 0
  · left
    have hts2 : trimStartOf r = 1 + k := hts
    have hsucc : 1 + k = k + 1 := by omega
    refine ⟨by omega, ?_, ?_⟩
    · rw [hts2, hsucc]
      unfold cummulScoreOf
      rw [List.getD_cons_succ, hvalk]
      exact hpos
    · intro j hj
      rw [hts2] at hj
      cases j with
      | zero => simp [cummulScoreOf]
      | succ j =>
        unfold cummulScoreOf
        rw [List.getD_cons_succ, hzero j (by omega)]
        exact lt_irrefl 0

/-- Claim C3: the trim boundaries satisfy
`0 <= trim_start <= trim_finish <= length`, and for records longer
than 20 the trimmer returns exactly the `[trim_start, trim_finish)`
slice of the record. -/
theorem C3_trim_bounds (r : ABIRec) (hq : r.qual.length = r.seq.length) :
    trimStartOf r ≤ trimFinishOf r ∧ trimFinishOf r ≤ r.seq.length ∧
    (20 < r.seq.length →
      abi_trim r = sliceRec r (trimStartOf r) (trimFinishOf r)) := by
  have hcne : cummulScoreOf r ≠ [] := by
    unfold cummulScoreOf
    exact List.cons_ne_nil _ _
  have hmem : listMax (cummulScoreOf r) ∈ cummulScoreOf r := listMax_mem _ hcne
  have htf : trimFinishOf r < (cummulScoreOf r).length :=
    idxOf_lt_length _ _ hmem
  have hlen := cummulScore_length r
  have htail : ((scoreListOf r).tail).length = r.qual.length - 1 := by
    simp [scoreListOf]
  refine ⟨?_, by omega, fun h20 => ?_⟩
  · rcases trimStart_cum_spec (scoreListOf r).tail (scoreList_tail_ne_zero r) 1 with
      ⟨h1, _⟩ | ⟨k, hk, hts, hpos, hzero, hvalk⟩
    · have hts0 : trimStartOf r = 0 := h1
      omega
    · have hts2 : trimStartOf r = 1 + k := hts
      have hcum_pos : 0 < (cummulScoreOf r).getD (trimStartOf r) 0 := by
        rw [hts2, show 1 + k = k + 1 from by omega]
        unfold cummulScoreOf
        rw [List.getD_cons_succ, hvalk]
        exact hpos
      have htslt : trimStartOf r < (cummulScoreOf r).length := by omega
      have hMpos : 0 < listMax (cummulScoreOf r) :=
        lt_of_lt_of_le hcum_pos
          (le_listMax _ _ (getD_mem _ _ htslt))
      apply le_idxOf _ _ (trimStartOf r) (by omega)
      intro j hj
      rw [hts2] at hj
      cases j with
      | zero =>
        unfold cummulScoreOf
        rw [List.getD_cons_zero]
        exact ne_of_lt hMpos
      | succ j =>
        unfold cummulScoreOf
        rw [List.getD_cons_succ, hzero j (by omega)]
        exact ne_of_lt hMpos
  · unfold abi_trim
    rw [if_neg (by omega)]

/-- Claim C9: for a record longer than 20, `trim_finish` is the index
of the first occurrence of the maximum of the cumulative-score
sequence: the value there is the maximum, and every earlier value is
strictly below it. -/
theorem C9_trim_finish_first_max (r : ABIRec)
    (_hq : r.qual.length = r.seq.length) (_hl : 20 < r.seq.length) :
    (cummulScoreOf r).getD (trimFinishOf r) 0 = listMax (cummulScoreOf r) ∧
    ∀ j < trimFinishOf r,
      (cummulScoreOf r).getD j 0 < listMax (cummulScoreOf r) := by
  have hcne : cummulScoreOf r ≠ [] := by
    unfold cummulScoreOf
    exact List.cons_ne_nil _ _
  have hmem : listMax (cummulScoreOf r) ∈ cummulScoreOf r := listMax_mem _ hcne
  constructor
  · exact idxOf_getD _ _ hmem
  · intro j hj
    have htf : trimFinishOf r < (cummulScoreOf r).length :=
      idxOf_lt_length _ _ hmem
    have hne := getD_ne_of_lt_idxOf (cummulScoreOf r) (listMax (cummulScoreOf r)) j hj
    have hle : (cummulScoreOf r).getD j 0 ≤ listMax (cummulScoreOf r) :=
      le_listMax _ _ (getD_mem _ _ (by omega))
    exact lt_of_le_of_ne hle hne

/-- Records of length at most the 20-base segment threshold are
returned unchanged by the trimmer. -/
theorem abi_trim_short (r : ABIRec) (h : r.seq.length ≤ 20) :
    abi_trim r = r := by
  unfold abi_trim
  rw [if_pos h]

/-- Claim C8: a record of length at most 20 is returned unchanged, and
hence trimming is idempotent whenever the first trim leaves a record
of length at most 20. -/
theorem C8_short_trim_identity (r r2 : ABIRec) (h : r.seq.length ≤ 20)
    (h2 : (abi_trim r2).seq.length ≤ 20) :
    abi_trim r = r ∧ abi_trim (abi_trim r2) = abi_trim r2 :=
  ⟨abi_trim_short r h, abi_trim_short (abi_trim r2) h2⟩

/-- An empty annotations value for concrete test records. -/
def emptyAnnot : Annot :=
  { sampleWell := Option.none, dye := Option.none, polymer := Option.none,
    machineModel := Option.none, runStart := (Option.none, Option.none),
    runFinish := (Option.none, Option.none) }

/-- A concrete 4-base record (below the 20-base threshold). -/
def recShort : ABIRec :=
  { seq := [65, 67, 71, 84], qual := [10, 20, 30, 40], id := TagValue.none,
    name := "", annotations := emptyAnnot, alphabet := Option.none }

/-- A concrete 21-base record (above the 20-base threshold). -/
def recLong : ABIRec :=
  { seq := List.replicate 21 65, qual := List.replicate 21 10,
    id := TagValue.none, name := "", annotations := emptyAnnot,
    alphabet := Option.none }

theorem C2_trim_start_first_positive_witness :
    recLong.qual.length = recLong.seq.length ∧ 20 < recLong.seq.length ∧
    ((1 ≤ trimStartOf recLong ∧
        0 < (cummulScoreOf recLong).getD (trimStartOf recLong) 0 ∧
        ∀ j < trimStartOf recLong,
          ¬ 0 < (cummulScoreOf recLong).getD j 0)
      ∨ (trimStartOf recLong = 0 ∧
        ∀ j, ¬ 0 < (cummulScoreOf recLong).getD j 0)) :=
  ⟨by decide, by decide,
    C2_trim_start_first_positive recLong (by decide) (by decide)⟩

theorem C3_trim_bounds_witness :
    recLong.qual.length = recLong.seq.length ∧
    (trimStartOf recLong ≤ trimFinishOf recLong ∧
      trimFinishOf recLong ≤ recLong.seq.length ∧
      (20 < recLong.seq.length →
        abi_trim recLong =
          sliceRec recLong (trimStartOf recLong) (trimFinishOf recLong))) :=
  ⟨by decide, C3_trim_bounds recLong (by decide)⟩

theorem C9_trim_finish_first_max_witness :
    recLong.qual.length = recLong.seq.length ∧ 20 < recLong.seq.length ∧
    ((cummulScoreOf recLong).getD (trimFinishOf recLong) 0 =
        listMax (cummulScoreOf recLong) ∧
      ∀ j < trimFinishOf recLong,
        (cummulScoreOf recLong).getD j 0 < listMax (cummulScoreOf recLong)) :=
  ⟨by decide, by decide,
    C9_trim_finish_first_max recLong (by decide) (by decide)⟩

theorem C8_short_trim_identity_witness :
    recShort.seq.length ≤ 20 ∧ (abi_trim recShort).seq.length ≤ 20 ∧
    (abi_trim recShort = recShort ∧
      abi_trim (abi_trim recShort) = abi_trim recShort) := by
  have h : recShort.seq.length ≤ 20 := by decide
  have h2 : (abi_trim recShort).seq.length ≤ 20 := by
    rw [abi_trim_short recShort h]
    exact h
  exact ⟨h, h2, C8_short_trim_identity recShort recShort h h2⟩

/-! ### Claims about the parse pipeline -/

/-- Claim C6: a stream whose very first read returns zero bytes yields
zero records and raises no error. -/
theorem C6_empty_stream_no_records (s : Bytes) (t : Bool)
    (h : readBytes s 0 4 = []) : abiIterator s Option.none t = .ok [] := by
  have hct : collectTags s Option.none = .ok Option.none := by
    unfold collectTags
    rw [h]
    rfl
  have hp : abiParse s Option.none = .ok [] := by
    simp [abiParse, checkAlphabet, hct]
  simp [abiIterator, hp]

theorem C6_empty_stream_no_records_witness :
    readBytes [] 0 4 = [] ∧
    abiIterator [] Option.none false = .ok ([] : List ABIRec) :=
  ⟨rfl, C6_empty_stream_no_records [] false rfl⟩

/-- A caller-supplied alphabet whose base class is the generic
nucleotide alphabet: not DNA, but also neither protein nor RNA. -/
def genericNucleotide : Alphab := { base := .nucleotide, ambiguous := false }

/-- A caller-supplied protein alphabet. -/
def proteinAlph : Alphab := { base := .protein, ambiguous := false }

/-- Claim C4 (counterexample): a caller-supplied alphabet that is not a
DNA alphabet (here the generic nucleotide alphabet) is not rejected:
the parse completes without `InvalidAlphabetError`. -/
theorem C4_counterexample :
    genericNucleotide.base ≠ BaseAlph.dna ∧
    abiIterator [] (some genericNucleotide) false = .ok [] := by
  constructor
  · decide
  · have hp : abiParse [] (some genericNucleotide) = .ok [] := by decide
    unfold abiIterator
    rw [hp]
    rfl

/-- Claim C4 (amended): a caller-supplied alphabet whose base class is
protein or RNA always fails with `InvalidAlphabetError`, before any
reading or decoding work and regardless of the stream; other non-DNA
base classes pass the check. -/
theorem C4_protein_rna_rejected (s : Bytes) (a : Alphab) (t : Bool)
    (h : a.base = BaseAlph.protein ∨ a.base = BaseAlph.rna) :
    abiIterator s (some a) t = .error AbiError.invalidAlphabet := by
  have hchk : checkAlphabet (some a) = .error .invalidAlphabet := by
    rcases h with h | h
    · simp [checkAlphabet, h]
    · have hnp : a.base ≠ BaseAlph.protein := by rw [h]; decide
      simp [checkAlphabet, h, hnp]
  have hp : abiParse s (some a) = .error .invalidAlphabet := by
    simp [abiParse, hchk]
  simp [abiIterator, hp]

theorem C4_protein_rna_rejected_witness :
    (proteinAlph.base = BaseAlph.protein ∨ proteinAlph.base = BaseAlph.rna) ∧
    abiIterator [1, 2, 3] (some proteinAlph) true =
      .error AbiError.invalidAlphabet :=
  ⟨Or.inl rfl, C4_protein_rna_rejected [1, 2, 3] proteinAlph true (Or.inl rfl)⟩

/-- Claim C5: when the directory walk completes but the mandatory
base-sequence or quality tag was never seen, the parse fails with
`IncompleteRecordError`; no record is emitted (the result is the
error alone, so assembly is atomic). -/
theorem C5_missing_mandatory_tags (s : Bytes) (t : Bool) (c : Collected)
    (hc : collectTags s Option.none = .ok (some c))
    (hmiss : c.seq = Option.none ∨ c.qual = Option.none) :
    abiIterator s Option.none t = .error AbiError.incompleteRecord := by
  have hasm : assembleRecord c = .error .incompleteRecord := by
    unfold assembleRecord
    rcases hmiss with h | h
    · rw [h]
    · rw [h]
      cases c.seq <;> rfl
  have hp : abiParse s Option.none = .error .incompleteRecord := by
    simp [abiParse, checkAlphabet, hc, hasm]
  simp [abiIterator, hp]

/-- A well-formed 30-byte ABIF header announcing zero directory
entries. -/
def streamNoTags : Bytes := abifMagic ++ List.replicate 26 0

theorem C5_missing_mandatory_tags_witness :
    collectTags streamNoTags Option.none =
      .ok (some (initCollected Option.none)) ∧
    ((initCollected Option.none).seq = Option.none ∨
      (initCollected Option.none).qual = Option.none) ∧
    abiIterator streamNoTags Option.none false =
      .error AbiError.incompleteRecord :=
  ⟨by decide, Or.inl rfl,
    C5_missing_mandatory_tags streamNoTags false (initCollected Option.none)
      (by decide) (Or.inl rfl)⟩
